import Mathlib

/-!
Verification of the Trino adaptive-partitioning tool's usage-mining and
scoring engine, shallowly embedded from `src/partitioning.py` and
`src/iceberg_utils.py`.

Modelling conventions:
* Python query-log rows are tuples of mixed string / numeric / NULL
  fields, accessed positionally; they are embedded as `List Cell`.
* Python floats are embedded as `ℚ`; the integer statistics returned by
  the metadata collaborator (approx_distinct, MIN/MAX ranges) as `ℤ`/`ℕ`.
* The external SQL parser (sqlglot) and the external database cursor are
  collaborators, passed in as function arguments; the repository's own
  traversal and arithmetic are translated verbatim.
* Python dicts keyed by insertion order are embedded as association
  lists built in the same order.
-/

/-- One field of a query-log tuple: a string, a number, or SQL NULL
(Python `None`).  Rows of `system.runtime.queries`-style logs hold
`query_id`, query text, create time, then numeric metrics. -/
inductive Cell where
  | str : String → Cell
  | num : ℚ → Cell
  | null : Cell
deriving DecidableEq

/-- A query-log row, as the positional tuple the Python code indexes into:
row[0]=query_id, row[1]=query text, row[2]=create_time,
row[3]=execution_time_ms, row[4]=cpu_time_ms, row[5]=scheduled_time_ms,
row[6]=input_bytes, row[7]=peak_memory_bytes, row[8]=peak_total_memory_bytes. -/
abbrev LogRow := List Cell

/-- `row[i]` when it holds a number, `none` when the index is out of range
or the field is NULL (Python `row[i] is None`). -/
def cellNum (row : LogRow) (i : ℕ) : Option ℚ :=
  match row[i]? with
  | some (Cell.num q) => some q
  | _ => none

/-- `row[i]` when it holds a string. -/
def cellStr (row : LogRow) (i : ℕ) : Option String :=
  match row[i]? with
  | some (Cell.str s) => some s
  | _ => none

/-- The dict key the scoring loop uses: `query_id = row[0]`.
(Python raises on an empty tuple; rows are assumed nonempty.) -/
def rowKey (row : LogRow) : Cell := row.headD Cell.null

/-- `max(values) if values else 1`: the per-metric normalisation
denominator of `analyze_query_resource_metrics`. -/
def maxOr1 : List ℚ → ℚ
  | [] => 1
  | x :: xs => xs.foldl max x

/-- The list comprehension `[row[i] for row in data if len(row) > i and
row[i] is not None]` collecting a metric column over the batch. -/
def presentVals (data : List LogRow) (i : ℕ) : List ℚ :=
  data.filterMap (fun row => cellNum row i)

/-- Python truthiness of an optional numeric field: `None` and `0` are
falsy, every other number is truthy. -/
def pyTruthy : Option ℚ → Bool
  | some q => q != 0
  | none => false

/-- One normalised term of the composite resource score:
`(row[i] / max_values[m]) * w if row[i] else 0`. -/
def metricTerm (v : Option ℚ) (maxv w : ℚ) : ℚ :=
  if pyTruthy v then (v.getD 0) / maxv * w else 0

/-- The composite resource score of one row, given the whole batch:
`40*(exec/max) + 30*(cpu/max) + 15*(input/max) + 15*(mem/max)`. -/
def rowScore (data : List LogRow) (row : LogRow) : ℚ :=
  metricTerm (cellNum row 3) (maxOr1 (presentVals data 3)) 40
  + metricTerm (cellNum row 4) (maxOr1 (presentVals data 4)) 30
  + metricTerm (cellNum row 6) (maxOr1 (presentVals data 6)) 15
  + metricTerm (cellNum row 7) (maxOr1 (presentVals data 7)) 15

/-- `analyze_query_resource_metrics` (partitioning.py:123-168): emits one
`(query_id, score)` per row, skipping rows with `len(row) < 8`.  The
Python dict keeps the last entry per duplicate query_id; the emitted
pairs are kept here in order. -/
def analyze_query_resource_metrics (data : List LogRow) : List (Cell × ℚ) :=
  if data.isEmpty then []
  else data.filterMap (fun row =>
    if 8 ≤ row.length then some (rowKey row, rowScore data row) else none)

/-- Every metric field present in the batch is non-negative
(absent fields default to 0 here, keeping the predicate decidable). -/
def MetricsNonneg (data : List LogRow) : Prop :=
  ∀ row ∈ data, ∀ i ∈ [3, 4, 6, 7], 0 ≤ (cellNum row i).getD 0

/-- The row attains the batch maximum on all four metrics. -/
def HoldsAllMax (data : List LogRow) (row : LogRow) : Prop :=
  cellNum row 3 = some (maxOr1 (presentVals data 3))
  ∧ cellNum row 4 = some (maxOr1 (presentVals data 4))
  ∧ cellNum row 6 = some (maxOr1 (presentVals data 6))
  ∧ cellNum row 7 = some (maxOr1 (presentVals data 7))

/-- All four batch maxima are positive. -/
def MaxesPos (data : List LogRow) : Prop :=
  0 < maxOr1 (presentVals data 3) ∧ 0 < maxOr1 (presentVals data 4)
  ∧ 0 < maxOr1 (presentVals data 6) ∧ 0 < maxOr1 (presentVals data 7)

/-- A sqlglot expression subtree, as far as the repository traverses it:
column references (with optional table qualifier), literals, and binary
operators.  `find_all(exp.Column)` visits every `col` leaf. -/
inductive SqlExpr where
  | col : Option String → String → SqlExpr
  | lit : String → SqlExpr
  | bin : String → SqlExpr → SqlExpr → SqlExpr
deriving DecidableEq

/-- A table reference with its optional alias (`node.args.get("alias")`). -/
structure TableExpr where
  name : String
  tblAlias : Option String
deriving DecidableEq

/-- A JOIN clause; `onCond` is `join.args.get("on")`. -/
structure JoinSpec where
  table : TableExpr
  onCond : Option SqlExpr
deriving DecidableEq

/-- The parsed shape of a SELECT statement, as the repository's sqlglot
traversals consume it: projected expressions, the FROM tables, the JOIN
clauses, and `parsed.args.get("where")`. -/
structure SelectQuery where
  selectExprs : List SqlExpr
  fromTables : List TableExpr
  joins : List JoinSpec
  whereClause : Option SqlExpr
deriving DecidableEq

/-- `e.find_all(exp.Column)`: every column name in the subtree, with
multiplicity, in traversal order. -/
def collectColumns : SqlExpr → List String
  | SqlExpr.col _ n => [n]
  | SqlExpr.lit _ => []
  | SqlExpr.bin _ l r => collectColumns l ++ collectColumns r

/-- Column occurrences inside all JOIN ON-conditions
(`for join in parsed.find_all(exp.Join): ... on.find_all(exp.Column)`). -/
def joinColumnOccurrences (q : SelectQuery) : List String :=
  q.joins.flatMap (fun j =>
    match j.onCond with
    | some e => collectColumns e
    | none => [])

/-- Column occurrences inside the WHERE clause, if present. -/
def whereColumnOccurrences (q : SelectQuery) : List String :=
  match q.whereClause with
  | some e => collectColumns e
  | none => []

/-- `parsed.find_all(exp.Table)`: the FROM tables followed by each JOIN's
target table. -/
def allTableExprs (q : SelectQuery) : List TableExpr :=
  q.fromTables ++ q.joins.map (fun j => j.table)

/-- Bare table names, as `analyze_query_performance` and the query-log
branch of `aggregate_column_usage` collect them (`node.name`, no alias). -/
def tableNames (q : SelectQuery) : List String :=
  (allTableExprs q).map (fun t => t.name)

/-- The label `parse_underlying_query` records per table:
`f"{table_name} AS {alias.name}"` when an alias is present. -/
def tableLabel (t : TableExpr) : String :=
  match t.tblAlias with
  | some a => t.name ++ " AS " ++ a
  | none => t.name

/-- `parsed.find_all(exp.Column)` over the whole statement, as
`analyze_query_performance` uses it. -/
def allColumnNames (q : SelectQuery) : List String :=
  q.selectExprs.flatMap collectColumns ++ joinColumnOccurrences q
    ++ whereColumnOccurrences q

/-- First index at which `needle` occurs as a contiguous sublist of
`hay`, like Python `str.find` (which returns -1, modelled as `none`). -/
def findSub (needle : List Char) : List Char → Option ℕ
  | [] => if needle.isPrefixOf ([] : List Char) then some 0 else none
  | c :: t =>
    if needle.isPrefixOf (c :: t) then some 0
    else (findSub needle t).map (fun i => i + 1)

/-- `ddl.upper()`, character by character (ASCII case mapping). -/
def upperChars (l : List Char) : List Char := l.map Char.toUpper

/-- The exact character set of `strip(" \n;")`. -/
def stripSet : List Char := [' ', '\n', ';']

/-- Python `s.strip(" \n;")`: remove characters of the set from both
ends (tabs and other whitespace are untouched). -/
def stripBoth (l : List Char) : List Char :=
  ((l.dropWhile (fun c => stripSet.contains c)).reverse.dropWhile
    (fun c => stripSet.contains c)).reverse

/-- The marker `" AS "` searched for in the uppercased DDL. -/
def markerList : List Char := [' ', 'A', 'S', ' ']

/-- `extract_select_statement` (partitioning.py:9-20): find the first
case-insensitive `" AS "`, return the stripped suffix, else `None`. -/
def extract_select_statement (ddl : List Char) : Option (List Char) :=
  match findSub markerList (upperChars ddl) with
  | some idx => some (stripBoth (ddl.drop (idx + markerList.length)))
  | none => none

/-- The marker occurs at position `i` of the uppercased DDL. -/
def MarkerAt (ddl : List Char) (i : ℕ) : Prop :=
  markerList.isPrefixOf ((upperChars ddl).drop i) = true

instance (ddl : List Char) (i : ℕ) : Decidable (MarkerAt ddl i) := by
  unfold MarkerAt
  infer_instance

/-- Distinct elements in first-occurrence order — the key order of a
Python `Counter` built by repeated `+= 1` insertions. -/
def firstOccurrences (l : List String) : List String :=
  l.reverse.dedup.reverse

/-- `Counter(l).items()`: distinct keys in first-insertion order, each
with its total count. -/
def counterItems (l : List String) : List (String × ℕ) :=
  (firstOccurrences l).map (fun c => (c, l.count c))

/-- Frequency lookup in a `(column, count)` table (first match). -/
def freqOf (tbl : List (String × ℕ)) (c : String) : Option ℕ :=
  (tbl.find? (fun p => p.1 == c)).map (fun p => p.2)

/-- Insert behind every element whose key is `≥` the new key — the
insertion step of a stable descending sort. -/
def insertDescBy {α β : Type} [LinearOrder β] (key : α → β) (x : α) :
    List α → List α
  | [] => [x]
  | y :: ys => if key y < key x then x :: y :: ys else y :: insertDescBy key x ys

/-- Stable descending sort by key, as Python's stable
`sorted(..., reverse=True)` / the DataFrame sort produce. -/
def sortDescBy {α β : Type} [LinearOrder β] (key : α → β) (l : List α) :
    List α :=
  l.foldl (fun acc x => insertDescBy key x acc) []

/-- The result of `parse_underlying_query`: underlying tables, JOIN
column counts, WHERE column counts. -/
structure UsageSignal where
  tables : List String
  join_columns : List (String × ℕ)
  where_columns : List (String × ℕ)
deriving DecidableEq

/-- `parse_underlying_query` (partitioning.py:22-66).  The sqlglot call
is the collaborator argument `parse`; a `None`/empty extraction or a
parse failure yields `none`. -/
def parse_underlying_query (parse : List Char → Option SelectQuery)
    (ddl : List Char) : Option UsageSignal :=
  match extract_select_statement ddl with
  | none => none
  | some qt =>
    if qt.isEmpty then none
    else
      match parse qt with
      | none => none
      | some q =>
        some { tables := (allTableExprs q).map tableLabel,
               join_columns := counterItems (joinColumnOccurrences q),
               where_columns := counterItems (whereColumnOccurrences q) }

/-- One `view_data` tuple `(fully_qualified_view, columns, query_count,
ddl)` as fetched from information_schema. -/
structure ViewRow where
  fq_view : String
  columns : List String
  query_count : ℕ
  ddl : Option (List Char)
deriving DecidableEq

/-- The emissions of one view into `weighted_columns`: its column list
repeated `query_count` times, then — when the DDL is truthy and parses —
each JOIN column repeated by its multiset count.  WHERE columns are
parsed but never emitted. -/
def viewEmissions (parse : List Char → Option SelectQuery) (vr : ViewRow) :
    List String :=
  (List.replicate vr.query_count vr.columns).flatten ++
    (match vr.ddl with
     | some d =>
       if d.isEmpty then []
       else
         match parse_underlying_query parse d with
         | some stats => stats.join_columns.flatMap
             (fun p => List.replicate p.2 p.1)
         | none => []
     | none => [])

/-- The emissions of one query-log row: the bare table names referenced
by the query, or nothing on a parse failure. -/
def logEmissions (parse : List Char → Option SelectQuery) (row : LogRow) :
    List String :=
  match cellStr row 1 with
  | some q =>
    match parse q.toList with
    | some p => tableNames p
    | none => []
  | none => []

/-- The full `weighted_columns` list, in emission order. -/
def columnEmissions (parse : List Char → Option SelectQuery)
    (view_data : List ViewRow) (query_log_data : List LogRow) : List String :=
  view_data.flatMap (viewEmissions parse)
    ++ query_log_data.flatMap (logEmissions parse)

/-- `aggregate_column_usage` (partitioning.py:68-100): count the
emissions and sort descending by weighted frequency (stable, as the
insertion-ordered Counter rows are sorted by count). -/
def aggregate_column_usage (parse : List Char → Option SelectQuery)
    (view_data : List ViewRow) (query_log_data : List LogRow) :
    List (String × ℕ) :=
  sortDescBy (fun p => p.2)
    (counterItems (columnEmissions parse view_data query_log_data))

/-- One value of the `performance_metrics` dict of
`analyze_query_performance`: execution-time sum, query count, and the
per-column execution-time-weighted sums. -/
structure PerfEntry where
  execution_time : ℚ
  query_count : ℕ
  columns : String → Option ℚ

/-- The entry created by `if table not in performance_metrics`. -/
def emptyPerfEntry : PerfEntry :=
  { execution_time := 0, query_count := 0, columns := fun _ => none }

/-- `performance_metrics[table]["columns"][col] += result[0]`, with the
implicit 0 initialisation. -/
def addColTime (t : ℚ) (f : String → Option ℚ) (c : String) :
    String → Option ℚ :=
  fun x => if x = c then some ((f c).getD 0 + t) else f x

/-- The per-table accumulation of one processed log row. -/
def perfAddTable (t : ℚ) (cols : List String)
    (m : String → Option PerfEntry) (tbl : String) :
    String → Option PerfEntry :=
  let e := (m tbl).getD emptyPerfEntry
  let e2 : PerfEntry :=
    { execution_time := e.execution_time + t,
      query_count := e.query_count + 1,
      columns := cols.foldl (addColTime t) e.columns }
  fun x => if x = tbl then some e2 else m x

/-- The per-row step of `analyze_query_performance`: re-fetch the
execution time by query id, re-parse the query text, and accumulate; a
failed fetch or parse leaves the dict unchanged (the row is skipped). -/
def perfStep (fetch : String → Option ℚ)
    (parse : List Char → Option SelectQuery)
    (m : String → Option PerfEntry) (row : LogRow) :
    String → Option PerfEntry :=
  match cellStr row 0, cellStr row 1 with
  | some qid, some qtext =>
    match fetch qid with
    | some t =>
      match parse qtext.toList with
      | some p => (tableNames p).foldl (perfAddTable t (allColumnNames p)) m
      | none => m
    | none => m
  | _, _ => m

/-- `analyze_query_performance` (partitioning.py:170-203).  `fetch` is
the collaborator query `SELECT execution_time_ms FROM
system.runtime.queries WHERE query_id = ...`.  The result dict is keyed
by *bare* table names parsed out of each query's text. -/
def analyze_query_performance (fetch : String → Option ℚ)
    (parse : List Char → Option SelectQuery) (rows : List LogRow) :
    String → Option PerfEntry :=
  rows.foldl (perfStep fetch parse) (fun _ => none)

/-- `base_weight`: the column's global weighted frequency, 0 if the
column never appears in `global_stats` (first matching row otherwise). -/
def baseWeight (global_stats : List (String × ℕ)) (column : String) : ℚ :=
  match global_stats.find? (fun p => p.1 == column) with
  | some p => (p.2 : ℚ)
  | none => 0

/-- The cardinality banding of `calculate_partition_score`
(partitioning.py:305-318); `none` = cardinality unknown. -/
def cardinalityBonus : Option ℤ → ℚ
  | some c =>
    if c < 10 then 5
    else if c < 100 then 10
    else if c < 1000 then 8
    else if c < 10000 then 5
    else 1
  | none => 0

/-- The performance bonus: `min(columns[column] / 1000, 50)` looked up
under the *view* key of `performance_metrics`, 0 when absent. -/
def perfBonus (perf : String → Option PerfEntry) (view column : String) : ℚ :=
  match perf view with
  | some e =>
    match e.columns column with
    | some x => min (x / 1000) 50
    | none => 0
  | none => 0

/-- `calculate_partition_score` (partitioning.py:294-325):
`score = base_weight * 1.0 + cardinality_bonus + performance_bonus`. -/
def calculate_partition_score (column view : String)
    (cardinality_stats : String → String → Option ℤ)
    (performance_metrics : String → Option PerfEntry)
    (global_stats : List (String × ℕ)) : ℚ :=
  baseWeight global_stats column * 1
    + cardinalityBonus (cardinality_stats view column)
    + perfBonus performance_metrics view column

/-- The statistics dict passed to `generate_iceberg_partition_spec`;
absent keys are `none` (`column_stats.get(key, 0)` defaults to 0). -/
structure ColumnStats where
  cardinality : Option ℤ
  value_range : Option ℤ
  date_granularity : Option String
deriving DecidableEq

/-- `generate_iceberg_partition_spec` (iceberg_utils.py:1-46). -/
def generate_iceberg_partition_spec (column : String) (column_type : String)
    (column_stats : ColumnStats) : String :=
  if column_type = "date" ∨ column_type = "timestamp" then
    match column_stats.date_granularity with
    | some g =>
      if g = "day" then "day(" ++ column ++ ")"
      else if g = "month" then "month(" ++ column ++ ")"
      else if g = "year" then "year(" ++ column ++ ")"
      else "month(" ++ column ++ ")"
    | none => "month(" ++ column ++ ")"
  else if column_type = "varchar" ∨ column_type = "string"
      ∨ column_type = "char" then
    if 10000 < column_stats.cardinality.getD 0 then
      "bucket(16, " ++ column ++ ")"
    else column
  else if column_type = "integer" ∨ column_type = "bigint" then
    if 1000 < column_stats.cardinality.getD 0 then
      "bucket(" ++ toString (min (max (column_stats.cardinality.getD 0 / 500) 4) 32)
        ++ ", " ++ column ++ ")"
    else if 10000 < column_stats.value_range.getD 0 then
      "truncate(" ++ column ++ ", 100)"
    else column
  else column

/-- The per-view score map of `produce_iceberg_partition_scripts`
(`view_scores`), in column order. -/
def view_scores (global_stats : List (String × ℕ))
    (card : String → String → Option ℤ) (perf : String → Option PerfEntry)
    (fq : String) (cols : List String) : List (String × ℚ) :=
  cols.map (fun c => (c, calculate_partition_score c fq card perf global_stats))

/-- `sorted(view_scores.items(), key=..., reverse=True)`: stable
descending sort by score. -/
def sorted_columns (global_stats : List (String × ℕ))
    (card : String → String → Option ℤ) (perf : String → Option PerfEntry)
    (fq : String) (cols : List String) : List (String × ℚ) :=
  sortDescBy (fun p => p.2) (view_scores global_stats card perf fq cols)

/-- `[col for col, score in sorted_columns[:top_n] if score > 0]`. -/
def top_columns (global_stats : List (String × ℕ))
    (card : String → String → Option ℤ) (perf : String → Option PerfEntry)
    (fq : String) (cols : List String) (top_n : ℕ) : List String :=
  ((sorted_columns global_stats card perf fq cols).take top_n
    |>.filter (fun p => decide (0 < p.2))).map (fun p => p.1)

/-- The comment-only advisory script emitted when no column scores
positively. -/
def advisoryScript (fq : String) : String :=
  "-- " ++ fq ++ " does not contain suitable columns for partitioning.\n"

/-- `produce_iceberg_partition_scripts` (partitioning.py:327-440),
its selection and script-generation part: the cursor-derived statistics
(cardinality, performance, column types, per-column stats) enter as
collaborator arguments.  The `-- Column scores:` echo line renders the
scored pairs with `toString` in place of Python's tuple repr. -/
def produce_iceberg_partition_scripts (global_stats : List (String × ℕ))
    (card : String → String → Option ℤ) (perf : String → Option PerfEntry)
    (ctypes : String → String → Option String)
    (cstats : String → String → Option ColumnStats)
    (view_data : List ViewRow) (top_n : ℕ) : List (String × String) :=
  view_data.map (fun vr =>
    let sc := sorted_columns global_stats card perf vr.fq_view vr.columns
    let tc := top_columns global_stats card perf vr.fq_view vr.columns top_n
    (vr.fq_view,
      if tc.isEmpty then advisoryScript vr.fq_view
      else
        let specs := tc.map (fun c =>
          generate_iceberg_partition_spec c
            ((ctypes vr.fq_view c).getD "unknown")
            ((cstats vr.fq_view c).getD ⟨none, none, none⟩))
        "-- Iceberg Partitioning script for " ++ vr.fq_view ++ "\n"
          ++ "-- Column scores: " ++ toString (sc.take top_n) ++ "\n"
          ++ "ALTER TABLE " ++ vr.fq_view ++ " REPLACE PARTITION SPEC (\n    "
          ++ String.intercalate ",\n    " specs ++ "\n);\n"))

/-- One value of the distribution map of `analyze_data_distribution`. -/
structure DistStat where
  percentiles : List ℚ
  skew_ratio : ℚ
  density : ℚ
  distinct_count : ℕ
deriving DecidableEq

/-- The entry built from one fetched `(percentiles, distinct_count,
total_count)` triple (partitioning.py:265-286): `skew_ratio = p90/p10`
behind the zero/equal-percentile guard, else 1.0; `density =
distinct/total` when `total_count > 0`, else 0.  Accessing a percentile
list shorter than 3 raises in Python and the row is skipped. -/
def distEntry (percentiles : List ℚ) (distinct_count total_count : ℕ) :
    Option DistStat :=
  match percentiles[0]?, percentiles[2]? with
  | some p0, some p2 =>
    some { percentiles := percentiles,
           skew_ratio := if p0 ≠ p2 ∧ p0 ≠ 0 then p2 / p0 else 1,
           density := if 0 < total_count then
               (distinct_count : ℚ) / (total_count : ℚ) else 0,
           distinct_count := distinct_count }
  | _, _ => none

/-- `analyze_data_distribution` (partitioning.py:240-292): per view, the
first 5 columns are sampled; a failed fetch or an empty/short percentile
list skips the column. -/
def analyze_data_distribution
    (fetchDist : String → String → Option (List ℚ × ℕ × ℕ))
    (view_data : List ViewRow) : List (String × List (String × DistStat)) :=
  view_data.map (fun vr =>
    (vr.fq_view, (vr.columns.take 5).filterMap (fun c =>
      match fetchDist vr.fq_view c with
      | some (ps, dc, tc) => (distEntry ps dc tc).map (fun e => (c, e))
      | none => none)))

/-! Concrete inputs used by the counterexamples and witnesses. -/

/-- The §8 end-to-end DDL for `db.sales`. -/
def salesDDL : List Char :=
  "CREATE MATERIALIZED VIEW db.sales AS SELECT * FROM orders o JOIN regions r ON o.region=r.region WHERE o.amount > 100".toList

/-- The select text `extract_select_statement` recovers from `salesDDL`. -/
def salesSelect : List Char :=
  "SELECT * FROM orders o JOIN regions r ON o.region=r.region WHERE o.amount > 100".toList

/-- The sqlglot parse of `salesSelect`: `orders AS o` in FROM,
`regions AS r` joined ON `o.region = r.region`, WHERE `o.amount > 100`.
The ON equality holds two `exp.Column` nodes, both named `region`. -/
def salesAst : SelectQuery :=
  { selectExprs := [],
    fromTables := [⟨"orders", some "o"⟩],
    joins := [⟨⟨"regions", some "r"⟩,
      some (SqlExpr.bin "=" (SqlExpr.col (some "o") "region")
        (SqlExpr.col (some "r") "region"))⟩],
    whereClause := some (SqlExpr.bin ">" (SqlExpr.col (some "o") "amount")
      (SqlExpr.lit "100")) }

/-- The sqlglot collaborator restricted to the one query of the §8
example. -/
def salesParse : List Char → Option SelectQuery :=
  fun s => if s = salesSelect then some salesAst else none

/-- The §8 example view row: `('db.sales', [order_date, region, amount],
query_count=1, ddl=salesDDL)`. -/
def salesView : ViewRow :=
  ⟨"db.sales", ["order_date", "region", "amount"], 1, some salesDDL⟩

/-- A full-length log row whose four metric fields are all NULL. -/
def rowAllNull : LogRow :=
  [Cell.str "q9", Cell.str "SELECT 1", Cell.null, Cell.null, Cell.null,
   Cell.null, Cell.null, Cell.null]

/-- A full-length log row whose four metric fields are all 0 — it
attains the batch maximum of the singleton batch `[rowZero]` on every
metric. -/
def rowZero : LogRow :=
  [Cell.str "q1", Cell.str "SELECT 1", Cell.null, Cell.num 0, Cell.num 0,
   Cell.null, Cell.num 0, Cell.num 0]

/-- A log row with positive metrics 2, 3, 4, 5. -/
def rowPos : LogRow :=
  [Cell.str "q2", Cell.str "SELECT 1", Cell.null, Cell.num 2, Cell.num 3,
   Cell.null, Cell.num 4, Cell.num 5]

/-- A parse collaborator that fails on every input. -/
def noParse : List Char → Option SelectQuery := fun _ => none

/-- Two single-column views used to exhibit the tie-order sensitivity of
`aggregate_column_usage`. -/
def viewA : ViewRow := ⟨"s.v1", ["a"], 1, none⟩

/-- See `viewA`. -/
def viewB : ViewRow := ⟨"s.v2", ["b"], 1, none⟩

/-- A log row referencing the table `orders`, for the performance
correlator's witness. -/
def ordersRow : LogRow :=
  [Cell.str "q5", Cell.str "SELECT a FROM orders", Cell.null]

/-- The sqlglot parse of `SELECT a FROM orders`. -/
def ordersAst : SelectQuery :=
  { selectExprs := [SqlExpr.col none "a"],
    fromTables := [⟨"orders", none⟩],
    joins := [],
    whereClause := none }

/-- The sqlglot collaborator restricted to `SELECT a FROM orders`. -/
def ordersParse : List Char → Option SelectQuery :=
  fun s => if s = "SELECT a FROM orders".toList then some ordersAst else none

/-- A distribution collaborator returning percentiles [10, 20, 30] with
5 distinct values over 50 rows for every sampled column. -/
def distFetch : String → String → Option (List ℚ × ℕ × ℕ) :=
  fun _ _ => some ([10, 20, 30], 5, 50)

/-- A single-column view sampled by the distribution analyzer. -/
def distView : ViewRow := ⟨"db.t", ["x"], 1, none⟩

/-- The distribution entry produced for `distView`'s column `x` under
`distFetch`. -/
def distStatX : DistStat :=
  { percentiles := [10, 20, 30], skew_ratio := 30 / 10,
    density := (5 : ℚ) / 50, distinct_count := 5 }

/-- The view used by the advisory-script witness. -/
def advView : ViewRow := ⟨"db.t", ["x"], 1, none⟩

/-! Helper lemmas. -/

theorem le_foldl_max (a : ℚ) (l : List ℚ) : a ≤ l.foldl max a := by
  induction l generalizing a with
  | nil => exact le_refl a
  | cons x xs ih => exact le_trans (le_max_left a x) (ih (max a x))

theorem mem_le_foldl_max {q : ℚ} (a : ℚ) {l : List ℚ} (h : q ∈ l) :
    q ≤ l.foldl max a := by
  induction l generalizing a with
  | nil => cases h
  | cons x xs ih =>
    rcases List.mem_cons.mp h with rfl | hmem
    · exact le_trans (le_max_right a q) (le_foldl_max (max a q) xs)
    · exact ih (max a x) hmem

theorem le_maxOr1_of_mem {q : ℚ} {l : List ℚ} (h : q ∈ l) : q ≤ maxOr1 l := by
  cases l with
  | nil => cases h
  | cons x xs =>
    rcases List.mem_cons.mp h with rfl | hmem
    · exact le_foldl_max q xs
    · exact mem_le_foldl_max x hmem

theorem maxOr1_nonneg {l : List ℚ} (h : ∀ q ∈ l, 0 ≤ q) : 0 ≤ maxOr1 l := by
  cases l with
  | nil => norm_num [maxOr1]
  | cons x xs =>
    exact le_trans (h x (List.mem_cons_self x xs)) (le_foldl_max x xs)

theorem mem_presentVals {data : List LogRow} {row : LogRow} {i : ℕ} {q : ℚ}
    (hrow : row ∈ data) (hq : cellNum row i = some q) :
    q ∈ presentVals data i :=
  List.mem_filterMap.mpr ⟨row, hrow, hq⟩

theorem metricTerm_nonneg {v : Option ℚ} {vals : List ℚ} {w : ℚ}
    (hw : 0 ≤ w) (hnn : ∀ q ∈ vals, 0 ≤ q)
    (hv : ∀ q, v = some q → q ∈ vals) :
    0 ≤ metricTerm v (maxOr1 vals) w := by
  cases v with
  | none => simp [metricTerm, pyTruthy]
  | some q =>
    rcases eq_or_ne q 0 with rfl | h0
    · simp [metricTerm, pyTruthy]
    · have hq : 0 ≤ q := hnn q (hv q rfl)
      have hmax : 0 ≤ maxOr1 vals := maxOr1_nonneg hnn
      simpa [metricTerm, pyTruthy, h0] using
        mul_nonneg (div_nonneg hq hmax) hw

theorem metricTerm_le {v : Option ℚ} {vals : List ℚ} {w : ℚ}
    (hw : 0 ≤ w) (hnn : ∀ q ∈ vals, 0 ≤ q)
    (hv : ∀ q, v = some q → q ∈ vals) :
    metricTerm v (maxOr1 vals) w ≤ w := by
  cases v with
  | none => simpa [metricTerm, pyTruthy] using hw
  | some q =>
    rcases eq_or_ne q 0 with rfl | h0
    · simpa [metricTerm, pyTruthy] using hw
    · have hqmem : q ∈ vals := hv q rfl
      have hqpos : 0 < q := lt_of_le_of_ne (hnn q hqmem) (Ne.symm h0)
      have hle : q ≤ maxOr1 vals := le_maxOr1_of_mem hqmem
      have hmaxpos : 0 < maxOr1 vals := lt_of_lt_of_le hqpos hle
      have hdiv : q / maxOr1 vals ≤ 1 := (div_le_one hmaxpos).mpr hle
      simpa [metricTerm, pyTruthy, h0] using mul_le_of_le_one_left hw hdiv

theorem metricTerm_lt {v : Option ℚ} {vals : List ℚ} {w : ℚ}
    (hw : 0 < w) (hnn : ∀ q ∈ vals, 0 ≤ q)
    (hv : ∀ q, v = some q → q ∈ vals)
    (hne : v ≠ some (maxOr1 vals)) :
    metricTerm v (maxOr1 vals) w < w := by
  cases v with
  | none => simpa [metricTerm, pyTruthy] using hw
  | some q =>
    rcases eq_or_ne q 0 with rfl | h0
    · simpa [metricTerm, pyTruthy] using hw
    · have hqmem : q ∈ vals := hv q rfl
      have hqpos : 0 < q := lt_of_le_of_ne (hnn q hqmem) (Ne.symm h0)
      have hle : q ≤ maxOr1 vals := le_maxOr1_of_mem hqmem
      have hlt : q < maxOr1 vals :=
        lt_of_le_of_ne hle (fun heq => hne (by rw [heq]))
      have hmaxpos : 0 < maxOr1 vals := lt_of_lt_of_le hqpos hle
      have hdiv : q / maxOr1 vals < 1 := (div_lt_one hmaxpos).mpr hlt
      simpa [metricTerm, pyTruthy, h0] using mul_lt_of_lt_one_left hw hdiv

theorem metricTerm_at_max {m w : ℚ} (hm : 0 < m) :
    metricTerm (some m) m w = w := by
  have hne : m ≠ 0 := ne_of_gt hm
  simp [metricTerm, pyTruthy, hne, div_self hne]

theorem mem_analyze_resource_iff {data : List LogRow} {p : Cell × ℚ} :
    p ∈ analyze_query_resource_metrics data ↔
      ∃ row ∈ data, 8 ≤ row.length ∧ rowKey row = p.1
        ∧ rowScore data row = p.2 := by
  unfold analyze_query_resource_metrics
  by_cases hd : data.isEmpty
  · rw [List.isEmpty_iff] at hd
    subst hd
    simp
  · rw [if_neg hd, List.mem_filterMap]
    constructor
    · rintro ⟨row, hrow, hsome⟩
      by_cases h8 : 8 ≤ row.length
      · rw [if_pos h8] at hsome
        have := Option.some.inj hsome
        exact ⟨row, hrow, h8, by rw [← this], by rw [← this]⟩
      · rw [if_neg h8] at hsome
        cases hsome
    · rintro ⟨row, hrow, h8, hk, hs⟩
      exact ⟨row, hrow, by rw [if_pos h8, hk, hs]⟩

theorem perm_flatMap_congr {α β : Type} (f : α → List β) {l₁ l₂ : List α}
    (h : l₁.Perm l₂) : (l₁.flatMap f).Perm (l₂.flatMap f) := by
  induction h with
  | nil => exact List.Perm.refl _
  | cons x _ ih => simpa [List.flatMap_cons] using ih.append_left (f x)
  | swap x y l =>
    simp only [List.flatMap_cons]
    rw [← List.append_assoc, ← List.append_assoc]
    exact List.perm_append_comm.append_right _
  | trans _ _ ih₁ ih₂ => exact ih₁.trans ih₂

theorem insertDescBy_perm {α β : Type} [LinearOrder β] (key : α → β)
    (x : α) (l : List α) : (insertDescBy key x l).Perm (x :: l) := by
  induction l with
  | nil => exact List.Perm.refl _
  | cons y ys ih =>
    by_cases h : key y < key x
    · simp [insertDescBy, h]
    · simp only [insertDescBy, if_neg h]
      exact (ih.cons y).trans (List.Perm.swap x y ys)

theorem foldl_insertDescBy_perm {α β : Type} [LinearOrder β] (key : α → β)
    (l : List α) : ∀ acc : List α,
    (l.foldl (fun acc x => insertDescBy key x acc) acc).Perm (acc ++ l) := by
  induction l with
  | nil => intro acc; simp
  | cons x xs ih =>
    intro acc
    simp only [List.foldl_cons]
    exact (ih (insertDescBy key x acc)).trans
      (((insertDescBy_perm key x acc).append_right xs).trans
        List.perm_middle.symm)

theorem sortDescBy_perm {α β : Type} [LinearOrder β] (key : α → β)
    (l : List α) : (sortDescBy key l).Perm l := by
  simpa using foldl_insertDescBy_perm key l []

theorem mem_firstOccurrences {c : String} {l : List String} :
    c ∈ firstOccurrences l ↔ c ∈ l := by
  simp [firstOccurrences]

theorem nodup_firstOccurrences (l : List String) :
    (firstOccurrences l).Nodup := by
  simp [firstOccurrences, List.nodup_reverse, List.nodup_dedup]

theorem counterItems_perm {l₁ l₂ : List String} (h : l₁.Perm l₂) :
    (counterItems l₁).Perm (counterItems l₂) := by
  have hfo : (firstOccurrences l₁).Perm (firstOccurrences l₂) :=
    (List.perm_ext_iff_of_nodup (nodup_firstOccurrences l₁)
        (nodup_firstOccurrences l₂)).mpr
      (fun a => by simp [mem_firstOccurrences, h.mem_iff])
  have hmap : ((firstOccurrences l₂).map (fun c => (c, l₁.count c)))
      = ((firstOccurrences l₂).map (fun c => (c, l₂.count c))) :=
    List.map_congr_left (fun c _ => by rw [h.count_eq])
  unfold counterItems
  rw [← hmap]
  exact hfo.map _

theorem mem_view_scores {global_stats : List (String × ℕ)}
    {card : String → String → Option ℤ} {perf : String → Option PerfEntry}
    {fq : String} {cols : List String} {p : String × ℚ}
    (h : p ∈ view_scores global_stats card perf fq cols) :
    p.1 ∈ cols ∧ p.2 = calculate_partition_score p.1 fq card perf global_stats := by
  rcases List.mem_map.mp h with ⟨c, hc, rfl⟩
  exact ⟨hc, rfl⟩

theorem findSub_eq_none_iff {needle hay : List Char} :
    findSub needle hay = none ↔
      ∀ i, needle.isPrefixOf (hay.drop i) ≠ true := by
  induction hay with
  | nil =>
    by_cases h : needle.isPrefixOf ([] : List Char)
    · simp only [findSub, if_pos h]
      constructor
      · intro hcontra; cases hcontra
      · intro hall; exact absurd (by simpa using h) (hall 0)
    · simp only [findSub, if_neg h]
      constructor
      · intro _ i
        simpa [List.drop_nil] using h
      · intro _; trivial
  | cons c t ih =>
    by_cases h : needle.isPrefixOf (c :: t)
    · simp only [findSub, if_pos h]
      constructor
      · intro hcontra; cases hcontra
      · intro hall; exact absurd (by simpa using h) (hall 0)
    · simp only [findSub, if_neg h]
      rw [Option.map_eq_none']
      rw [ih]
      constructor
      · intro hall i
        cases i with
        | zero => simpa using h
        | succ j => simpa [List.drop_succ_cons] using hall j
      · intro hall j
        simpa [List.drop_succ_cons] using hall (j + 1)

theorem findSub_eq_some_of_first {needle hay : List Char} {i : ℕ}
    (h : needle.isPrefixOf (hay.drop i) = true)
    (hmin : ∀ j < i, needle.isPrefixOf (hay.drop j) ≠ true) :
    findSub needle hay = some i := by
  induction hay generalizing i with
  | nil =>
    have hi : i = 0 := by
      by_contra hne
      exact hmin 0 (Nat.pos_of_ne_zero hne) (by simpa [List.drop_nil] using h)
    subst hi
    simp only [findSub]
    rw [if_pos (by simpa using h)]
  | cons c t ih =>
    cases i with
    | zero =>
      simp only [findSub]
      rw [if_pos (by simpa using h)]
    | succ j =>
      have h0 : ¬ (needle.isPrefixOf (c :: t) = true) :=
        hmin 0 (Nat.succ_pos j)
      simp only [findSub]
      rw [if_neg h0]
      have ht : findSub needle t = some j :=
        ih (by simpa [List.drop_succ_cons] using h)
          (fun k hk => by
            simpa [List.drop_succ_cons] using hmin (k + 1) (Nat.succ_lt_succ hk))
      rw [ht]
      rfl

theorem perfAddTable_apply_ne {t : ℚ} {cols : List String}
    {m : String → Option PerfEntry} {tbl x : String} (hx : x ≠ tbl) :
    perfAddTable t cols m tbl x = m x := by
  simp [perfAddTable, hx]

theorem foldl_perfAddTable_apply_ne {t : ℚ} {cols : List String}
    {tbls : List String} {x : String} (hx : x ∉ tbls) :
    ∀ m : String → Option PerfEntry,
      (tbls.foldl (perfAddTable t cols) m) x = m x := by
  induction tbls with
  | nil => intro m; rfl
  | cons tb tbs ih =>
    intro m
    simp only [List.foldl_cons]
    rw [ih (fun hmem => hx (List.mem_cons_of_mem _ hmem))]
    exact perfAddTable_apply_ne (fun heq => hx (heq ▸ List.mem_cons_self _ _))

theorem perfStep_apply_none {fetch : String → Option ℚ}
    {parse : List Char → Option SelectQuery}
    {m : String → Option PerfEntry} {row : LogRow} {view : String}
    (hm : m view = none)
    (hrow : ∀ qid qtext p, cellStr row 0 = some qid →
      cellStr row 1 = some qtext → fetch qid ≠ none →
      parse qtext.toList = some p → view ∉ tableNames p) :
    perfStep fetch parse m row view = none := by
  unfold perfStep
  rcases hc0 : cellStr row 0 with _ | qid
  · simp only [hc0]; exact hm
  rcases hc1 : cellStr row 1 with _ | qtext
  · simp only [hc0, hc1]; exact hm
  rcases hf : fetch qid with _ | tval
  · simp only [hc0, hc1, hf]; exact hm
  rcases hp : parse qtext.toList with _ | p
  · simp only [hc0, hc1, hf, hp]; exact hm
  have hnot : view ∉ tableNames p :=
    hrow qid qtext p hc0 hc1 (by simp [hf]) hp
  simp only [hc0, hc1, hf, hp]
  rw [foldl_perfAddTable_apply_ne hnot]
  exact hm

theorem perf_foldl_apply_none {fetch : String → Option ℚ}
    {parse : List Char → Option SelectQuery} {view : String}
    (rows : List LogRow) :
    ∀ m : String → Option PerfEntry, m view = none →
    (∀ row ∈ rows, ∀ qid qtext p, cellStr row 0 = some qid →
      cellStr row 1 = some qtext → fetch qid ≠ none →
      parse qtext.toList = some p → view ∉ tableNames p) →
    (rows.foldl (perfStep fetch parse) m) view = none := by
  induction rows with
  | nil => intro m hm _; exact hm
  | cons r rs ih =>
    intro m hm h
    simp only [List.foldl_cons]
    exact ih _ (perfStep_apply_none hm (h r (List.mem_cons_self _ _)))
      (fun row hrowmem => h row (List.mem_cons_of_mem _ hrowmem))

/-! Claim theorems. -/

/-- C6: `generate_iceberg_partition_spec` maps timestamp+day granularity
to `day(col)`, varchar with cardinality 20000 to `bucket(16, col)`,
integer with cardinality 5000 to `bucket(10, col)`; and for any
integer/bigint column, cardinality > 1000 gives `bucket(n, column)` with
`n = clamp(cardinality/500, 4, 32)`, cardinality ≤ 1000 with
value_range > 10000 gives `truncate(column, 100)`, and otherwise the
bare column. -/
theorem c6_transform_selection :
    generate_iceberg_partition_spec "col" "timestamp" ⟨none, none, some "day"⟩
        = "day(col)"
    ∧ generate_iceberg_partition_spec "col" "varchar" ⟨some 20000, none, none⟩
        = "bucket(16, col)"
    ∧ generate_iceberg_partition_spec "col" "integer" ⟨some 5000, none, none⟩
        = "bucket(10, col)"
    ∧ (∀ t : String, (t = "integer" ∨ t = "bigint") →
        ∀ (col : String) (st : ColumnStats),
        (1000 < st.cardinality.getD 0 →
          generate_iceberg_partition_spec col t st =
            "bucket(" ++ toString (min (max (st.cardinality.getD 0 / 500) 4) 32)
              ++ ", " ++ col ++ ")")
        ∧ (st.cardinality.getD 0 ≤ 1000 → 10000 < st.value_range.getD 0 →
          generate_iceberg_partition_spec col t st = "truncate(" ++ col ++ ", 100)")
        ∧ (st.cardinality.getD 0 ≤ 1000 → st.value_range.getD 0 ≤ 10000 →
          generate_iceberg_partition_spec col t st = col)) := by
  refine ⟨by decide, by decide, by decide, ?_⟩
  intro t ht col st
  have hnd : ¬(t = "date" ∨ t = "timestamp") := by
    rcases ht with rfl | rfl <;> decide
  have hnv : ¬(t = "varchar" ∨ t = "string" ∨ t = "char") := by
    rcases ht with rfl | rfl <;> decide
  unfold generate_iceberg_partition_spec
  rw [if_neg hnd, if_neg hnv, if_pos ht]
  refine ⟨?_, ?_, ?_⟩
  · intro hc; rw [if_pos hc]
  · intro hc hv; rw [if_neg (not_lt.mpr hc), if_pos hv]
  · intro hc hv; rw [if_neg (not_lt.mpr hc), if_neg (not_lt.mpr hv)]

/-- Witness for C6: concrete instances of the general integer/bigint
clauses, with their hypotheses discharged. -/
theorem c6_transform_selection_witness :
    generate_iceberg_partition_spec "c" "bigint" ⟨some 123456, none, none⟩
        = "bucket(32, c)"
    ∧ generate_iceberg_partition_spec "c" "integer" ⟨some 7, some 20000, none⟩
        = "truncate(c, 100)" := by
  constructor
  · have h := (c6_transform_selection.2.2.2 "bigint" (Or.inr rfl) "c"
      ⟨some 123456, none, none⟩).1 (by decide)
    exact h.trans (by decide)
  · have h := (c6_transform_selection.2.2.2 "integer" (Or.inl rfl) "c"
      ⟨some 7, some 20000, none⟩).2.1 (by decide) (by decide)
    exact h.trans (by decide)

/-- C7: the cardinality bonus added by `calculate_partition_score` is 5
for c<10, 10 for 10≤c<100, 8 for 100≤c<1000, 5 for 1000≤c<10000, 1 for
c≥10000, and 0 for an unknown cardinality; in particular the bonus at
5, 50, 5000, 50000 is 5, 10, 5, 1. -/
theorem c7_cardinality_bonus_bands (c : ℤ) (v col : String)
    (perf : String → Option PerfEntry) (gs : List (String × ℕ)) :
    (calculate_partition_score col v (fun _ _ => some c) perf gs
      - calculate_partition_score col v (fun _ _ => none) perf gs
      = if c < 10 then (5:ℚ) else if c < 100 then 10 else if c < 1000 then 8
        else if c < 10000 then 5 else 1)
    ∧ calculate_partition_score col v (fun _ _ => none) (fun _ => none) [] = 0
    ∧ calculate_partition_score col v (fun _ _ => some 5) (fun _ => none) [] = 5
    ∧ calculate_partition_score col v (fun _ _ => some 50) (fun _ => none) [] = 10
    ∧ calculate_partition_score col v (fun _ _ => some 5000) (fun _ => none) [] = 5
    ∧ calculate_partition_score col v (fun _ _ => some 50000) (fun _ => none) [] = 1 := by
  refine ⟨?_, ?_, ?_, ?_, ?_, ?_⟩
  · simp only [calculate_partition_score, cardinalityBonus]
    ring
  all_goals norm_num [calculate_partition_score, baseWeight, cardinalityBonus,
    perfBonus]

/-- C3: `calculate_partition_score` looks its performance bonus up under
the view's fully-qualified name while `analyze_query_performance` keys
its map by bare parsed table names; a view never named as a parsed table
of a successfully processed log row gets performance bonus 0 and score
`base_weight + cardinality_bonus`. -/
theorem c3_unreferenced_view_no_perf_bonus
    (fetch : String → Option ℚ) (parse : List Char → Option SelectQuery)
    (rows : List LogRow) (view col : String)
    (card : String → String → Option ℤ) (gs : List (String × ℕ))
    (h : ∀ row ∈ rows, ∀ qid qtext p, cellStr row 0 = some qid →
      cellStr row 1 = some qtext → fetch qid ≠ none →
      parse qtext.toList = some p → view ∉ tableNames p) :
    perfBonus (analyze_query_performance fetch parse rows) view col = 0
    ∧ calculate_partition_score col view card
        (analyze_query_performance fetch parse rows) gs
      = baseWeight gs col + cardinalityBonus (card view col) := by
  have hnone : analyze_query_performance fetch parse rows view = none := by
    unfold analyze_query_performance
    exact perf_foldl_apply_none rows _ rfl h
  constructor
  · simp [perfBonus, hnone]
  · simp [calculate_partition_score, perfBonus, hnone, mul_one]

/-- Witness for C3: a log batch referencing only the table `orders`
contributes no performance bonus to the view `db.sales`, whose score is
its base weight 7 plus its cardinality bonus 10. -/
theorem c3_unreferenced_view_no_perf_bonus_witness :
    calculate_partition_score "amount" "db.sales"
      (fun v c => if v = "db.sales" ∧ c = "amount" then some 50 else none)
      (analyze_query_performance (fun _ => some 5000) ordersParse [ordersRow])
      [("amount", 7)] = 17 := by
  have h := c3_unreferenced_view_no_perf_bonus (fun _ => some 5000) ordersParse
    [ordersRow] "db.sales" "amount"
    (fun v c => if v = "db.sales" ∧ c = "amount" then some 50 else none)
    [("amount", 7)]
    (by
      intro row hrow qid qtext p h0 h1 hf hp
      simp only [List.mem_singleton] at hrow
      subst hrow
      have h1c : cellStr ordersRow 1 = some "SELECT a FROM orders" := rfl
      rw [h1c] at h1
      have hq : qtext = "SELECT a FROM orders" := (Option.some.inj h1).symm
      subst hq
      have hpc : ordersParse "SELECT a FROM orders".toList = some ordersAst := by
        decide
      rw [hpc] at hp
      have hpe : p = ordersAst := (Option.some.inj hp).symm
      subst hpe
      decide)
  refine h.2.trans ?_
  norm_num [baseWeight, cardinalityBonus]

theorem presentVals_nonneg {data : List LogRow} (hnn : MetricsNonneg data)
    {i : ℕ} (hi : i ∈ [3, 4, 6, 7]) : ∀ q ∈ presentVals data i, 0 ≤ q := by
  intro q hq
  rcases List.mem_filterMap.mp hq with ⟨row, hrow, hcell⟩
  have h := hnn row hrow i hi
  rw [hcell] at h
  simpa using h

theorem analyze_singleton {r : LogRow} (h8 : 8 ≤ r.length) :
    analyze_query_resource_metrics [r] = [(rowKey r, rowScore [r] r)] := by
  simp [analyze_query_resource_metrics, h8]

/-- C2 (amended): a row shorter than 8 fields is never scored — every
`(query_id, score)` pair emitted by `analyze_query_resource_metrics`
comes from a row with at least 8 fields (a full-length row whose four
metric fields are all NULL is still scored, with score 0); conversely
every row of length ≥ 8 is scored. -/
theorem c2_scores_come_from_full_rows (data : List LogRow) :
    (∀ p ∈ analyze_query_resource_metrics data,
      ∃ row ∈ data, 8 ≤ row.length ∧ rowKey row = p.1
        ∧ rowScore data row = p.2)
    ∧ (∀ row ∈ data, 8 ≤ row.length →
      (rowKey row, rowScore data row) ∈ analyze_query_resource_metrics data) := by
  constructor
  · intro p hp
    exact mem_analyze_resource_iff.mp hp
  · intro row hrow h8
    exact mem_analyze_resource_iff.mpr ⟨row, hrow, h8, rfl, rfl⟩

/-- C2 counterexample: the full-length row `rowAllNull` supplies none of
the four metric fields, yet its query id receives an emitted score (0),
contradicting the claim that such rows are skipped entirely. -/
theorem c2_all_null_row_scored_cex :
    cellNum rowAllNull 3 = none ∧ cellNum rowAllNull 4 = none
    ∧ cellNum rowAllNull 6 = none ∧ cellNum rowAllNull 7 = none
    ∧ analyze_query_resource_metrics [rowAllNull] = [(Cell.str "q9", 0)] := by
  refine ⟨rfl, rfl, rfl, rfl, ?_⟩
  have hs : rowScore [rowAllNull] rowAllNull = 0 := by
    norm_num [rowScore, metricTerm, pyTruthy, cellNum, rowAllNull]
  rw [analyze_singleton (by norm_num [rowAllNull]), hs]
  rfl

/-- Witness for C2: the emitted pair of the all-NULL batch traces back to
a row of length ≥ 8. -/
theorem c2_scores_come_from_full_rows_witness :
    ∃ row ∈ [rowAllNull], 8 ≤ row.length ∧ rowKey row = Cell.str "q9"
      ∧ rowScore [rowAllNull] row = 0 := by
  refine (c2_scores_come_from_full_rows [rowAllNull]).1 (Cell.str "q9", 0) ?_
  have hs : rowScore [rowAllNull] rowAllNull = 0 := by
    norm_num [rowScore, metricTerm, pyTruthy, cellNum, rowAllNull]
  rw [analyze_singleton (by norm_num [rowAllNull]), hs]
  exact List.mem_singleton_self _

/-- C4 (amended): with non-negative metrics every emitted score lies in
[0, 100]; a row attaining the batch maximum on all four metrics scores
exactly 100 *provided those maxima are positive*; and a row missing the
maximum on some metric scores strictly below 100. -/
theorem c4_resource_score_bounds (data : List LogRow)
    (hnn : MetricsNonneg data) :
    (∀ p ∈ analyze_query_resource_metrics data, 0 ≤ p.2 ∧ p.2 ≤ 100)
    ∧ (∀ row ∈ data, HoldsAllMax data row → MaxesPos data →
        rowScore data row = 100)
    ∧ (∀ row ∈ data, ¬ HoldsAllMax data row → rowScore data row < 100) := by
  have hnn3 := presentVals_nonneg hnn (show (3:ℕ) ∈ [3,4,6,7] by simp)
  have hnn4 := presentVals_nonneg hnn (show (4:ℕ) ∈ [3,4,6,7] by simp)
  have hnn6 := presentVals_nonneg hnn (show (6:ℕ) ∈ [3,4,6,7] by simp)
  have hnn7 := presentVals_nonneg hnn (show (7:ℕ) ∈ [3,4,6,7] by simp)
  refine ⟨?_, ?_, ?_⟩
  · intro p hp
    rcases mem_analyze_resource_iff.mp hp with ⟨row, hrow, h8, hk, hs⟩
    rw [← hs]
    have hv3 : ∀ q, cellNum row 3 = some q → q ∈ presentVals data 3 :=
      fun q hq => mem_presentVals hrow hq
    have hv4 : ∀ q, cellNum row 4 = some q → q ∈ presentVals data 4 :=
      fun q hq => mem_presentVals hrow hq
    have hv6 : ∀ q, cellNum row 6 = some q → q ∈ presentVals data 6 :=
      fun q hq => mem_presentVals hrow hq
    have hv7 : ∀ q, cellNum row 7 = some q → q ∈ presentVals data 7 :=
      fun q hq => mem_presentVals hrow hq
    constructor
    · have t3 := metricTerm_nonneg (by norm_num : (0:ℚ) ≤ 40) hnn3 hv3
      have t4 := metricTerm_nonneg (by norm_num : (0:ℚ) ≤ 30) hnn4 hv4
      have t6 := metricTerm_nonneg (by norm_num : (0:ℚ) ≤ 15) hnn6 hv6
      have t7 := metricTerm_nonneg (by norm_num : (0:ℚ) ≤ 15) hnn7 hv7
      unfold rowScore
      linarith
    · have t3 := metricTerm_le (by norm_num : (0:ℚ) ≤ 40) hnn3 hv3
      have t4 := metricTerm_le (by norm_num : (0:ℚ) ≤ 30) hnn4 hv4
      have t6 := metricTerm_le (by norm_num : (0:ℚ) ≤ 15) hnn6 hv6
      have t7 := metricTerm_le (by norm_num : (0:ℚ) ≤ 15) hnn7 hv7
      unfold rowScore
      linarith
  · intro row _ hmax hpos
    obtain ⟨h3, h4, h6, h7⟩ := hmax
    obtain ⟨p3, p4, p6, p7⟩ := hpos
    unfold rowScore
    rw [h3, h4, h6, h7, metricTerm_at_max p3, metricTerm_at_max p4,
      metricTerm_at_max p6, metricTerm_at_max p7]
    norm_num
  · intro row hrow hnmax
    have hv3 : ∀ q, cellNum row 3 = some q → q ∈ presentVals data 3 :=
      fun q hq => mem_presentVals hrow hq
    have hv4 : ∀ q, cellNum row 4 = some q → q ∈ presentVals data 4 :=
      fun q hq => mem_presentVals hrow hq
    have hv6 : ∀ q, cellNum row 6 = some q → q ∈ presentVals data 6 :=
      fun q hq => mem_presentVals hrow hq
    have hv7 : ∀ q, cellNum row 7 = some q → q ∈ presentVals data 7 :=
      fun q hq => mem_presentVals hrow hq
    have t3 := metricTerm_le (by norm_num : (0:ℚ) ≤ 40) hnn3 hv3
    have t4 := metricTerm_le (by norm_num : (0:ℚ) ≤ 30) hnn4 hv4
    have t6 := metricTerm_le (by norm_num : (0:ℚ) ≤ 15) hnn6 hv6
    have t7 := metricTerm_le (by norm_num : (0:ℚ) ≤ 15) hnn7 hv7
    by_cases hc3 : cellNum row 3 = some (maxOr1 (presentVals data 3))
    · by_cases hc4 : cellNum row 4 = some (maxOr1 (presentVals data 4))
      · by_cases hc6 : cellNum row 6 = some (maxOr1 (presentVals data 6))
        · by_cases hc7 : cellNum row 7 = some (maxOr1 (presentVals data 7))
          · exact absurd ⟨hc3, hc4, hc6, hc7⟩ hnmax
          · have s7 := metricTerm_lt (by norm_num : (0:ℚ) < 15) hnn7 hv7 hc7
            unfold rowScore
            linarith
        · have s6 := metricTerm_lt (by norm_num : (0:ℚ) < 15) hnn6 hv6 hc6
          unfold rowScore
          linarith
      · have s4 := metricTerm_lt (by norm_num : (0:ℚ) < 30) hnn4 hv4 hc4
        unfold rowScore
        linarith
    · have s3 := metricTerm_lt (by norm_num : (0:ℚ) < 40) hnn3 hv3 hc3
      unfold rowScore
      linarith

/-- C4 counterexample: in the batch `[rowZero]` every present metric is
non-negative and `rowZero` attains the batch maximum (0) on all four
metrics, yet its emitted score is 0, not 100 — the claim fails when the
batch maxima are not positive. -/
theorem c4_zero_metrics_max_cex :
    MetricsNonneg [rowZero] ∧ HoldsAllMax [rowZero] rowZero
    ∧ rowScore [rowZero] rowZero = 0
    ∧ analyze_query_resource_metrics [rowZero] = [(Cell.str "q1", 0)] := by
  have hs : rowScore [rowZero] rowZero = 0 := by
    norm_num [rowScore, metricTerm, pyTruthy, cellNum, rowZero, maxOr1,
      presentVals]
  refine ⟨?_, ?_, hs, ?_⟩
  · intro row hrow i hi
    simp only [List.mem_singleton] at hrow
    subst hrow
    fin_cases hi <;> norm_num [cellNum, rowZero]
  · exact ⟨rfl, rfl, rfl, rfl⟩
  · rw [analyze_singleton (by norm_num [rowZero]), hs]
    rfl

/-- Witness for C4: in the batch `[rowPos]` (metrics 2, 3, 4, 5) the row
attains all four positive maxima and its score is exactly 100. -/
theorem c4_resource_score_bounds_witness :
    rowScore [rowPos] rowPos = 100 := by
  refine (c4_resource_score_bounds [rowPos] ?_).2.1 rowPos
    (List.mem_singleton_self _) ⟨rfl, rfl, rfl, rfl⟩ ?_
  · intro row hrow i hi
    simp only [List.mem_singleton] at hrow
    subst hrow
    fin_cases hi <;> norm_num [cellNum, rowPos]
  · refine ⟨?_, ?_, ?_, ?_⟩
    · rw [show maxOr1 (presentVals [rowPos] 3) = 2 from rfl]; norm_num
    · rw [show maxOr1 (presentVals [rowPos] 4) = 3 from rfl]; norm_num
    · rw [show maxOr1 (presentVals [rowPos] 6) = 4 from rfl]; norm_num
    · rw [show maxOr1 (presentVals [rowPos] 7) = 5 from rfl]; norm_num

/-- C5 (amended): permuting the view rows and the log rows permutes the
resulting frequency table (rows of equal frequency may appear in a
different order, so the tables need not be *equal*); rerunning on
identical inputs gives an identical result. -/
theorem c5_aggregate_perm_invariant (parse : List Char → Option SelectQuery)
    (v₁ v₂ : List ViewRow) (q₁ q₂ : List LogRow)
    (hv : v₁.Perm v₂) (hq : q₁.Perm q₂) :
    (aggregate_column_usage parse v₁ q₁).Perm
      (aggregate_column_usage parse v₂ q₂)
    ∧ aggregate_column_usage parse v₁ q₁ = aggregate_column_usage parse v₁ q₁ := by
  refine ⟨?_, rfl⟩
  have he : (columnEmissions parse v₁ q₁).Perm (columnEmissions parse v₂ q₂) :=
    (perm_flatMap_congr _ hv).append (perm_flatMap_congr _ hq)
  exact ((sortDescBy_perm _ _).trans (counterItems_perm he)).trans
    (sortDescBy_perm _ _).symm

/-- C5 counterexample: two single-column views in the two orders are
permutations of each other, yet `aggregate_column_usage` returns
different (tie-ordered) frequency tables, refuting the claim that the
output is *identical* under input permutation. -/
theorem c5_tie_order_cex :
    ([viewA, viewB] : List ViewRow).Perm [viewB, viewA]
    ∧ aggregate_column_usage noParse [viewA, viewB] []
      ≠ aggregate_column_usage noParse [viewB, viewA] [] := by
  exact ⟨List.Perm.swap viewB viewA [], by decide⟩

/-- Witness for C5: the permuted outputs of the counterexample pair are
still permutations of each other. -/
theorem c5_aggregate_perm_invariant_witness :
    (aggregate_column_usage noParse [viewA, viewB] []).Perm
      (aggregate_column_usage noParse [viewB, viewA] []) :=
  (c5_aggregate_perm_invariant noParse [viewA, viewB] [viewB, viewA] [] []
    (List.Perm.swap viewB viewA []) (List.Perm.refl [])).1

/-- C8 (amended): when the case-insensitive marker `" AS "` occurs,
`extract_select_statement` returns the suffix after its first
occurrence stripped on both ends of spaces, newlines and semicolons
(other whitespace such as tabs is *not* stripped); when the marker is
absent it returns `none`. -/
theorem c8_extract_select_marker (ddl : List Char) :
    ((∀ i, ¬ MarkerAt ddl i) → extract_select_statement ddl = none)
    ∧ (∀ i, MarkerAt ddl i → (∀ j < i, ¬ MarkerAt ddl j) →
        extract_select_statement ddl =
          some (stripBoth (ddl.drop (i + 4)))) := by
  constructor
  · intro h
    unfold extract_select_statement
    rw [findSub_eq_none_iff.mpr (fun i => h i)]
  · intro i hi hmin
    unfold extract_select_statement
    rw [findSub_eq_some_of_first hi hmin]
    rfl

/-- C8 counterexample: with a tab after the marker the extracted select
text keeps its leading whitespace, refuting "stripped of surrounding
whitespace" read literally. -/
theorem c8_tab_not_stripped_cex :
    extract_select_statement "CREATE T AS \tSELECT 1".toList
      = some ('\t' :: "SELECT 1".toList)
    ∧ Char.isWhitespace '\t' = true := by
  exact ⟨by decide, by decide⟩

/-- Witness for C8: the marker of `"X AS y;"` sits at index 1, nowhere
earlier, and extraction strips the trailing semicolon. -/
theorem c8_extract_select_marker_witness :
    extract_select_statement "X AS y;".toList = some ['y'] := by
  have h := (c8_extract_select_marker "X AS y;".toList).2 1 (by decide)
    (by decide)
  exact h.trans (by decide)

/-- C1 counterexample: on the §8 `db.sales` DDL, `parse_underlying_query`
counts the join column `region` twice (once per side of the ON
equality), not once, and the aggregated frequency of `region` is not 2. -/
theorem c1_join_double_count_cex :
    (parse_underlying_query salesParse salesDDL).map
        (fun u => freqOf u.join_columns "region") ≠ some (some 1)
    ∧ freqOf (aggregate_column_usage salesParse [salesView] []) "region"
      ≠ some 2 := by
  exact ⟨by decide, by decide⟩

/-- C1 (amended): on the §8 `db.sales` example, `parse_underlying_query`
returns join_columns = {region: 2} (both sides of `o.region=r.region`
count) and where_columns = {amount: 1}; the aggregated table gives
order_date frequency 1, region frequency 3 (base + two join hits) and
amount frequency 1 (the WHERE hit contributes nothing). -/
theorem c1_parse_and_aggregate :
    (parse_underlying_query salesParse salesDDL).map (fun u => u.join_columns)
      = some [("region", 2)]
    ∧ (parse_underlying_query salesParse salesDDL).map
        (fun u => u.where_columns) = some [("amount", 1)]
    ∧ freqOf (aggregate_column_usage salesParse [salesView] []) "order_date"
      = some 1
    ∧ freqOf (aggregate_column_usage salesParse [salesView] []) "region"
      = some 3
    ∧ freqOf (aggregate_column_usage salesParse [salesView] []) "amount"
      = some 1 := by
  refine ⟨by decide, by decide, by decide, by decide, by decide⟩

theorem distEntry_eq_some {ps : List ℚ} {dc tc : ℕ} {e : DistStat}
    (h : distEntry ps dc tc = some e) :
    ∃ p0 p2, ps[0]? = some p0 ∧ ps[2]? = some p2
      ∧ e = { percentiles := ps,
              skew_ratio := if p0 ≠ p2 ∧ p0 ≠ 0 then p2 / p0 else 1,
              density := if 0 < tc then (dc : ℚ) / (tc : ℚ) else 0,
              distinct_count := dc } := by
  unfold distEntry at h
  rcases hp0 : ps[0]? with _ | p0
  · rw [hp0] at h; exact Option.noConfusion h
  rcases hp2 : ps[2]? with _ | p2
  · rw [hp0, hp2] at h; exact Option.noConfusion h
  rw [hp0, hp2] at h
  exact ⟨p0, p2, rfl, rfl, (Option.some.inj h).symm⟩

/-- C9: a view all of whose columns score non-positively receives the
comment-only advisory script (no ALTER statement), and
`top_columns` never admits a non-positively scored column into a
partition specification. -/
theorem c9_advisory_when_no_positive_scores
    (gs : List (String × ℕ)) (card : String → String → Option ℤ)
    (perf : String → Option PerfEntry)
    (ctypes : String → String → Option String)
    (cstats : String → String → Option ColumnStats)
    (vd : List ViewRow) (top_n : ℕ) (vr : ViewRow)
    (hv : vr ∈ vd)
    (hall : ∀ c ∈ vr.columns,
      calculate_partition_score c vr.fq_view card perf gs ≤ 0) :
    (vr.fq_view, advisoryScript vr.fq_view)
      ∈ produce_iceberg_partition_scripts gs card perf ctypes cstats vd top_n
    ∧ ∀ (fq : String) (cols : List String) (n : ℕ),
        ∀ c ∈ top_columns gs card perf fq cols n,
          0 < calculate_partition_score c fq card perf gs := by
  have hpos : ∀ (fq : String) (cols : List String) (n : ℕ),
      ∀ c ∈ top_columns gs card perf fq cols n,
        0 < calculate_partition_score c fq card perf gs := by
    intro fq cols n c hc
    rcases List.mem_map.mp hc with ⟨p, hp, rfl⟩
    rcases List.mem_filter.mp hp with ⟨htake, hdec⟩
    have hps : p ∈ sorted_columns gs card perf fq cols :=
      List.take_subset n _ htake
    have hpv : p ∈ view_scores gs card perf fq cols :=
      (sortDescBy_perm _ _).mem_iff.mp hps
    rw [← (mem_view_scores hpv).2]
    exact of_decide_eq_true hdec
  have hempty : top_columns gs card perf vr.fq_view vr.columns top_n = [] := by
    unfold top_columns
    have hfil : ((sorted_columns gs card perf vr.fq_view vr.columns).take
        top_n).filter (fun p => decide (0 < p.2)) = [] := by
      rw [List.filter_eq_nil_iff]
      intro p hp hdec
      have hps : p ∈ sorted_columns gs card perf vr.fq_view vr.columns :=
        List.take_subset _ _ hp
      have hpv : p ∈ view_scores gs card perf vr.fq_view vr.columns :=
        (sortDescBy_perm _ _).mem_iff.mp hps
      obtain ⟨hc, he⟩ := mem_view_scores hpv
      have hlt := of_decide_eq_true hdec
      rw [he] at hlt
      exact absurd hlt (not_lt.mpr (hall p.1 hc))
    rw [hfil]
    rfl
  refine ⟨?_, hpos⟩
  apply List.mem_map.mpr
  exact ⟨vr, hv, by simp [hempty]⟩

/-- Witness for C9: a one-view catalog with an empty global frequency
table and no statistics gives the column score 0, hence the
advisory-only script. -/
theorem c9_advisory_when_no_positive_scores_witness :
    ("db.t", advisoryScript "db.t")
      ∈ produce_iceberg_partition_scripts [] (fun _ _ => none)
        (fun _ => none) (fun _ _ => none) (fun _ _ => none) [advView] 3 := by
  refine (c9_advisory_when_no_positive_scores [] (fun _ _ => none)
    (fun _ => none) (fun _ _ => none) (fun _ _ => none) [advView] 3 advView
    (List.mem_singleton_self _) ?_).1
  intro c hc
  norm_num [calculate_partition_score, baseWeight, cardinalityBonus, perfBonus]

/-- C10: every distribution entry produced by
`analyze_data_distribution` either has `skew_ratio = p90/p10` with the
divisor `p10` nonzero (and `p10 ≠ p90`) or the default `skew_ratio = 1`,
and either has `density = distinct/total` with the divisor `total`
positive or the default `density = 0` — no division by a zero
denominator is ever used. -/
theorem c10_skew_density_guards
    (fetchDist : String → String → Option (List ℚ × ℕ × ℕ))
    (vd : List ViewRow) :
    ∀ pair ∈ analyze_data_distribution fetchDist vd, ∀ ce ∈ pair.2,
      ((∃ p0 p2, ce.2.percentiles[0]? = some p0
          ∧ ce.2.percentiles[2]? = some p2
          ∧ p0 ≠ 0 ∧ p0 ≠ p2 ∧ ce.2.skew_ratio = p2 / p0)
        ∨ ce.2.skew_ratio = 1)
      ∧ ((∃ tc : ℕ, 0 < tc
          ∧ ce.2.density = (ce.2.distinct_count : ℚ) / (tc : ℚ))
        ∨ ce.2.density = 0) := by
  intro pair hpair ce hce
  rcases List.mem_map.mp hpair with ⟨vr, _, rfl⟩
  rcases List.mem_filterMap.mp hce with ⟨c, _, hsome⟩
  rcases hfd : fetchDist vr.fq_view c with _ | trip
  · rw [hfd] at hsome; exact Option.noConfusion hsome
  obtain ⟨ps, dc, tc⟩ := trip
  rw [hfd] at hsome
  have hsome2 : (distEntry ps dc tc).map (fun e => (c, e)) = some ce := hsome
  rcases Option.map_eq_some'.mp hsome2 with ⟨e, hde, hfe⟩
  rcases distEntry_eq_some hde with ⟨p0, p2, hp0, hp2, rfl⟩
  subst hfe
  constructor
  · by_cases hcond : p0 ≠ p2 ∧ p0 ≠ 0
    · exact Or.inl ⟨p0, p2, hp0, hp2, hcond.2, hcond.1, by simp [hcond]⟩
    · exact Or.inr (by simp [if_neg hcond])
  · by_cases htc : 0 < tc
    · exact Or.inl ⟨tc, htc, by simp [if_pos htc]⟩
    · exact Or.inr (by simp [if_neg htc])

/-- Witness for C10: the concrete entry for `distView`'s column under
`distFetch` takes the division branch of both guards. -/
theorem c10_skew_density_guards_witness :
    ((∃ p0 p2, distStatX.percentiles[0]? = some p0
        ∧ distStatX.percentiles[2]? = some p2
        ∧ p0 ≠ 0 ∧ p0 ≠ p2 ∧ distStatX.skew_ratio = p2 / p0)
      ∨ distStatX.skew_ratio = 1)
    ∧ ((∃ tc : ℕ, 0 < tc
        ∧ distStatX.density = (distStatX.distinct_count : ℚ) / (tc : ℚ))
      ∨ distStatX.density = 0) := by
  have h := c10_skew_density_guards distFetch [distView]
    ("db.t", [("x", distStatX)]) ?hp ("x", distStatX) ?hc
  · exact h
  case hp =>
    have hev : analyze_data_distribution distFetch [distView]
        = [("db.t", [("x", distStatX)])] := by
      norm_num [analyze_data_distribution, distFetch, distView, distEntry,
        distStatX]
      rfl
    rw [hev]
    exact List.mem_singleton_self _
  case hc => exact List.mem_singleton_self _
